import Mathlib

/-!
Shallow embedding of `pylsp_jsonrpc/streams.py`: the JSON-RPC stream
reader and writer.  Byte streams are modelled as lists of `Nat` (byte
values), the JSON codec (an external collaborator of this layer) is a
parameter, and Python exceptions are explicit values.
-/

set_option maxHeartbeats 1000000
set_option maxRecDepth 100000

/-- Python exceptions that matter to this layer.  `valueError` covers
`ValueError` and its subclasses (`UnicodeDecodeError`, JSON decode
errors); `unboundLocal` is `UnboundLocalError`; `other` is any
exception outside those classes. -/
inductive PyExc where
  | valueError
  | unboundLocal
  | other
deriving DecidableEq

mutual
/-- JSON values handed to / produced by the codec.  Numbers are
restricted to integers; floats do not occur in any claim.  Sequences
and mappings are represented with their own mutually-inductive list
forms so that recursion over values stays structural. -/
inductive Json where
  | null
  | bool (b : Bool)
  | num (n : Int)
  | str (s : String)
  | arr (elems : JsonElems)
  | obj (entries : JsonEntries)
inductive JsonElems where
  | nil
  | cons (head : Json) (tail : JsonElems)
inductive JsonEntries where
  | nil
  | cons (key : String) (val : Json) (tail : JsonEntries)
end

/-- UTF-8 encoding of one code point. -/
def utf8EncodeByte (c : Nat) : List Nat :=
  if c < 0x80 then [c]
  else if c < 0x800 then [0xC0 + c / 0x40, 0x80 + c % 0x40]
  else if c < 0x10000 then
    [0xE0 + c / 0x1000, 0x80 + c / 0x40 % 0x40, 0x80 + c % 0x40]
  else
    [0xF0 + c / 0x40000, 0x80 + c / 0x1000 % 0x40, 0x80 + c / 0x40 % 0x40,
      0x80 + c % 0x40]

/-- UTF-8 bytes of a string. -/
def strBytes (s : String) : List Nat :=
  (s.data.map (fun c => utf8EncodeByte c.toNat)).flatten

/-- Decimal digits worker with a structural fuel argument bounding the
number of division steps (so concrete digit strings evaluate by kernel
reduction); the fuel case split never changes the value when the fuel
is at least the number of digits minus one. -/
def natToDigitsF : Nat → Nat → List Nat
  | 0, n => [48 + n % 10]
  | fuel + 1, n =>
    if n < 10 then [48 + n] else natToDigitsF fuel (n / 10) ++ [48 + n % 10]

/-- Decimal ASCII digits of a natural number, as Python's `b"%i"`
formatting produces for non-negative values (`n` itself always
suffices as fuel). -/
def natToDigits (n : Nat) : List Nat := natToDigitsF n n

/-- Decimal ASCII rendering of an integer (Python `b"%i"`). -/
def intToDigits (n : Int) : List Nat :=
  if n < 0 then 45 :: natToDigits n.natAbs else natToDigits n.natAbs

/-- Accumulating decimal-digit evaluator: `none` as soon as a non-digit
byte is hit. -/
def digitsVal (acc : Nat) : List Nat → Option Nat
  | [] => some acc
  | b :: bs => if 48 ≤ b ∧ b ≤ 57 then digitsVal (acc * 10 + (b - 48)) bs else none

/-- A non-empty all-digit byte string evaluated as a natural number. -/
def parseDigits (bs : List Nat) : Option Nat :=
  if bs = [] then none else digitsVal 0 bs

/-- Python `int()` applied to an (already whitespace-stripped) byte
string: optional sign followed by a non-empty digit run.  (Python
additionally accepts underscore digit grouping, which no claim
exercises and which is not modelled.) -/
def parseInt (bs : List Nat) : Option Int :=
  match bs with
  | [] => none
  | b :: rest =>
    if b = 43 then (parseDigits rest).map Int.ofNat
    else if b = 45 then (parseDigits rest).map (fun n => -(n : Int))
    else (parseDigits (b :: rest)).map Int.ofNat

/-- ASCII whitespace, as stripped by Python `bytes.strip()`. -/
def isWS (b : Nat) : Bool :=
  b = 32 || b = 9 || b = 10 || b = 13 || b = 11 || b = 12

/-- Python `bytes.strip()`: drop ASCII whitespace from both ends. -/
def stripB (l : List Nat) : List Nat :=
  ((l.dropWhile isWS).reverse.dropWhile isWS).reverse

/-- `p` is a prefix of `l` (Python `bytes.startswith`). -/
def hasPrefixB : List Nat → List Nat → Bool
  | [], _ => true
  | _ :: _, [] => false
  | p :: ps, x :: xs => p = x && hasPrefixB ps xs

/-- `pat` occurs as a contiguous sublist of `l` (used to model how many
parts Python `bytes.split(sep)` yields). -/
def occursSub (pat : List Nat) : List Nat → Bool
  | [] => decide (pat = [])
  | x :: xs => hasPrefixB pat (x :: xs) || occursSub pat xs

/-- The input half of the byte-stream abstraction: remaining bytes plus
the closed flag reported by `.closed`. -/
structure RFile where
  data : List Nat
  closed : Bool
deriving DecidableEq

/-- One line of bytes, up to and including the first `\n` (byte 10), or
everything that is left when no newline remains (end of stream). -/
def takeLine : List Nat → List Nat
  | [] => []
  | b :: bs => if b = 10 then [10] else b :: takeLine bs

theorem takeLine_length_le (l : List Nat) : (takeLine l).length ≤ l.length := by
  induction l with
  | nil => simp [takeLine]
  | cons b bs ih =>
    simp only [takeLine]
    by_cases hb : b = 10 <;> simp [hb] <;> omega

theorem takeLine_length_pos (l : List Nat) (h : l ≠ []) :
    0 < (takeLine l).length := by
  cases l with
  | nil => exact absurd rfl h
  | cons b bs =>
    simp only [takeLine]
    by_cases hb : b = 10 <;> simp [hb]

/-- Python `rfile.readline()` on the modelled stream. -/
def RFile.readline (r : RFile) : List Nat × RFile :=
  let line := takeLine r.data
  (line, { r with data := r.data.drop line.length })

/-- Python `rfile.read(n)`.  `none` models `read(None)` (read to end of
stream); a negative count also reads everything, as in Python. -/
def RFile.read (n : Option Int) (r : RFile) : List Nat × RFile :=
  match n with
  | none => (r.data, { r with data := [] })
  | some i =>
    if i < 0 then (r.data, { r with data := [] })
    else (r.data.take i.toNat, { r with data := r.data.drop i.toNat })

/-- The `b"Content-Length: "` marker. -/
def clMarker : List Nat := strBytes "Content-Length: "

/-- `JsonRpcStreamReader._content_length`: extract the content length
from a header line.  A line that does not start with the marker yields
no length (`none`); an unparsable value raises `ValueError` (so does a
line where the marker occurs twice, via the 2-tuple unpacking of
`split`). -/
def JsonRpcStreamReader.content_length (line : List Nat) :
    Except PyExc (Option Int) :=
  if hasPrefixB clMarker line then
    let rest := line.drop clMarker.length
    if occursSub clMarker rest then .error .valueError
    else
      let value := stripB rest
      match parseInt value with
      | some n => .ok (some n)
      | none => .error .valueError
  else .ok none

/-- The header-discarding loop of `_read_message`:
`while line and line.strip(): line = self._rfile.readline()`. -/
def JsonRpcStreamReader.skipHeaders (line : List Nat) (r : RFile) :
    List Nat × RFile :=
  if line = [] ∨ stripB line = [] then (line, r)
  else if h : r.data = [] then
    -- `readline` returns `b''` here, so the loop exits at once.
    ([], r)
  else
    JsonRpcStreamReader.skipHeaders (r.readline).1 (r.readline).2
termination_by r.data.length
decreasing_by
  simp only [RFile.readline]
  have h1 := takeLine_length_le r.data
  have h2 := takeLine_length_pos r.data h
  have h3 : r.data.length ≠ 0 := by
    intro hc
    exact h (List.eq_nil_of_length_eq_zero hc)
  simp only [List.length_drop]
  omega

/-- `JsonRpcStreamReader._read_message`: read one frame.  Returns
`.ok none` at end of stream, `.error .valueError` when the
`Content-Length` header is present but unparsable, and otherwise the
raw body bytes. -/
def JsonRpcStreamReader.read_message (r : RFile) :
    Except PyExc (Option (List Nat)) × RFile :=
  let p1 := r.readline
  if p1.1 = [] then (.ok none, p1.2)
  else
    match JsonRpcStreamReader.content_length p1.1 with
    | .error e => (.error e, p1.2)
    | .ok clen =>
      let p2 := JsonRpcStreamReader.skipHeaders p1.1 p1.2
      if p2.1 = [] then (.ok none, p2.2)
      else
        let p3 := RFile.read clen p2.2
        (.ok (some p3.1), p3.2)

theorem RFile.readline_closed (r : RFile) : (r.readline).2.closed = r.closed := rfl

theorem RFile.read_closed (n : Option Int) (r : RFile) :
    (RFile.read n r).2.closed = r.closed := by
  cases n with
  | none => rfl
  | some i =>
    simp only [RFile.read]
    by_cases hi : i < 0 <;> simp [hi]

theorem RFile.read_data_le (n : Option Int) (r : RFile) :
    (RFile.read n r).2.data.length ≤ r.data.length := by
  cases n with
  | none => simp [RFile.read]
  | some i =>
    simp only [RFile.read]
    by_cases hi : i < 0 <;> simp [hi]

theorem skipHeaders_closed (line : List Nat) (r : RFile) :
    (JsonRpcStreamReader.skipHeaders line r).2.closed = r.closed := by
  induction line, r using JsonRpcStreamReader.skipHeaders.induct with
  | case1 line r h => rw [JsonRpcStreamReader.skipHeaders, if_pos h]
  | case2 line r h hd =>
    rw [JsonRpcStreamReader.skipHeaders, if_neg h, dif_pos hd]
  | case3 line r h hd ih =>
    rw [JsonRpcStreamReader.skipHeaders, if_neg h, dif_neg hd]
    exact ih

theorem skipHeaders_data_le (line : List Nat) (r : RFile) :
    (JsonRpcStreamReader.skipHeaders line r).2.data.length ≤ r.data.length := by
  induction line, r using JsonRpcStreamReader.skipHeaders.induct with
  | case1 line r h => rw [JsonRpcStreamReader.skipHeaders, if_pos h]
  | case2 line r h hd =>
    rw [JsonRpcStreamReader.skipHeaders, if_neg h, dif_pos hd]
  | case3 line r h hd ih =>
    rw [JsonRpcStreamReader.skipHeaders, if_neg h, dif_neg hd]
    refine le_trans ih ?_
    have he : (r.readline).2.data.length = r.data.length - (takeLine r.data).length := by
      simp [RFile.readline]
    have hle := takeLine_length_le r.data
    omega

theorem read_message_closed (r : RFile) :
    (JsonRpcStreamReader.read_message r).2.closed = r.closed := by
  have hr : (r.readline).2.closed = r.closed := rfl
  simp only [JsonRpcStreamReader.read_message]
  by_cases h1 : (r.readline).1 = []
  · simpa [h1] using hr
  · simp only [h1, ite_false]
    cases hcl : JsonRpcStreamReader.content_length (r.readline).1 with
    | error e => simpa using hr
    | ok clen =>
      by_cases h2 : (JsonRpcStreamReader.skipHeaders (r.readline).1 (r.readline).2).1 = []
      · simpa [h2, skipHeaders_closed] using hr
      · simpa [h2, RFile.read_closed, skipHeaders_closed] using hr

theorem read_message_data_lt (r : RFile) (h : r.data ≠ []) :
    (JsonRpcStreamReader.read_message r).2.data.length < r.data.length := by
  have hrl : (r.readline).2.data.length < r.data.length := by
    simp only [RFile.readline, List.length_drop]
    have h1 := takeLine_length_le r.data
    have h2 := takeLine_length_pos r.data h
    omega
  simp only [JsonRpcStreamReader.read_message]
  by_cases h1 : (r.readline).1 = []
  · exfalso
    apply h
    cases hd : r.data with
    | nil => rfl
    | cons b bs =>
      exfalso
      have := takeLine_length_pos r.data (by rw [hd]; simp)
      have : (r.readline).1.length = 0 := by rw [h1]; rfl
      simp only [RFile.readline] at this
      omega
  · simp only [h1, ite_false]
    cases hcl : JsonRpcStreamReader.content_length (r.readline).1 with
    | error e => simpa using hrl
    | ok clen =>
      simp only []
      have hsk := skipHeaders_data_le (r.readline).1 (r.readline).2
      by_cases h2 : (JsonRpcStreamReader.skipHeaders (r.readline).1 (r.readline).2).1 = []
      · simp only [h2, ite_true]
        omega
      · simp only [h2, ite_false]
        have hrd := RFile.read_data_le clen
          (JsonRpcStreamReader.skipHeaders (r.readline).1 (r.readline).2).2
        omega

/-- Outcome of `JsonRpcStreamReader.listen`: the Python call either
returns normally or an exception escapes it. -/
inductive ListenResult where
  | normal
  | raised (e : PyExc)
deriving DecidableEq

/-- The body of `JsonRpcStreamReader.listen`'s `while` loop, as a
recursive function.  `reqStr` models the Python local `request_str`:
`none` is "never assigned" (reading it raises `UnboundLocalError`),
`some none` is `None`, `some (some bs)` is body bytes `bs`.  `loads`
models `json.loads` composed with UTF-8 `decode` (returning `none` for
the `ValueError` subclasses both can raise); `consumer` returns the
exception the callback raises, if any.  The returned list collects the
values the consumer was invoked with, in order. -/
def JsonRpcStreamReader.listenLoop (loads : List Nat → Option Json)
    (consumer : Json → Option PyExc) (reqStr : Option (Option (List Nat)))
    (r : RFile) (acc : List Json) : List Json × ListenResult :=
  if r.closed then (acc, .normal)
  else if hn : r.data = [] then
    -- `_read_message` reads an empty line and returns `None` here,
    -- so `request_str is None` holds and the loop breaks.
    (acc, .normal)
  else
    match hres : JsonRpcStreamReader.read_message r with
    | (.error _, r') =>
      if r'.closed then (acc, .normal)
      else
        -- `log.exception(...)`; control falls through to the
        -- `request_str is None` test with `request_str` unchanged.
        match reqStr with
        | none => (acc, .raised .unboundLocal)
        | some none => (acc, .normal)
        | some (some bs) =>
          match loads bs with
          | none => JsonRpcStreamReader.listenLoop loads consumer (some (some bs)) r' acc
          | some j =>
            match consumer j with
            | none =>
              JsonRpcStreamReader.listenLoop loads consumer (some (some bs)) r' (acc ++ [j])
            | some .valueError =>
              JsonRpcStreamReader.listenLoop loads consumer (some (some bs)) r' (acc ++ [j])
            | some e => (acc ++ [j], .raised e)
    | (.ok none, r') => (acc, .normal)
    | (.ok (some bs), r') =>
      match loads bs with
      | none => JsonRpcStreamReader.listenLoop loads consumer (some (some bs)) r' acc
      | some j =>
        match consumer j with
        | none =>
          JsonRpcStreamReader.listenLoop loads consumer (some (some bs)) r' (acc ++ [j])
        | some .valueError =>
          JsonRpcStreamReader.listenLoop loads consumer (some (some bs)) r' (acc ++ [j])
        | some e => (acc ++ [j], .raised e)
termination_by r.data.length
decreasing_by
  all_goals
    have hlt := read_message_data_lt r hn
    rw [hres] at hlt
    exact hlt

/-- `JsonRpcStreamReader.listen`: run the read loop from a state where
`request_str` has never been assigned. -/
def JsonRpcStreamReader.listen (loads : List Nat → Option Json)
    (consumer : Json → Option PyExc) (r : RFile) : List Json × ListenResult :=
  JsonRpcStreamReader.listenLoop loads consumer none r []

/-- The output half of the byte-stream abstraction: bytes written so
far, the closed flag, and two flags saying whether the underlying
`write` / `flush` calls raise. -/
structure WFile where
  buf : List Nat
  closed : Bool
  writeRaises : Bool
  flushRaises : Bool
deriving DecidableEq

def WFile.write (bs : List Nat) (w : WFile) : WFile × Option PyExc :=
  if w.writeRaises then (w, some .other)
  else ({ w with buf := w.buf ++ bs }, none)

def WFile.flush (w : WFile) : WFile × Option PyExc :=
  if w.flushRaises then (w, some .other) else (w, none)

/-- The complete framed byte sequence the writer interpolates into
`b"Content-Length: %(length)i\r\nContent-Type: application/vscode-jsonrpc; charset=utf8\r\n\r\n%(body)s"`. -/
def frameBytes (body : List Nat) : List Nat :=
  clMarker ++ natToDigits body.length ++
    strBytes "\r\nContent-Type: application/vscode-jsonrpc; charset=utf8\r\n\r\n" ++
    body

/-- Result of one `JsonRpcStreamWriter.write` call: the stream state,
the exception propagated to the caller (if any), and whether
`log.exception` ran. -/
structure WriteResult where
  file : WFile
  raised : Option PyExc
  logged : Bool
deriving DecidableEq

/-- The `try` block of `JsonRpcStreamWriter.write`: serialize, frame,
write, flush; the first exception escapes with the state reached so
far. -/
def JsonRpcStreamWriter.tryWriteBody (dumps : Json → Except PyExc (List Nat))
    (message : Json) (w : WFile) : WFile × Option PyExc :=
  match dumps message with
  | .error e => (w, some e)
  | .ok body =>
    match WFile.write (frameBytes body) w with
    | (w1, some e) => (w1, some e)
    | (w1, none) => WFile.flush w1

/-- `JsonRpcStreamWriter.write`: under the instance lock, a closed
stream makes the call a silent no-op; otherwise the `try` body runs and
any exception it raises is caught and logged. -/
def JsonRpcStreamWriter.write (dumps : Json → Except PyExc (List Nat))
    (message : Json) (w : WFile) : WriteResult :=
  if w.closed then ⟨w, none, false⟩
  else
    match JsonRpcStreamWriter.tryWriteBody dumps message w with
    | (w', none) => ⟨w', none, false⟩
    | (w', some _) => ⟨w', none, true⟩

/-- `JsonRpcStreamWriter.close`: under the instance lock, close the
output stream. -/
def JsonRpcStreamWriter.close (w : WFile) : WFile := { w with closed := true }

theorem natToDigitsF_ne_nil (fuel n : Nat) : natToDigitsF fuel n ≠ [] := by
  cases fuel with
  | zero => simp [natToDigitsF]
  | succ fuel =>
    rw [natToDigitsF]
    by_cases h : n < 10 <;> simp [h]

theorem natToDigits_ne_nil (n : Nat) : natToDigits n ≠ [] :=
  natToDigitsF_ne_nil n n

theorem natToDigitsF_mem_digit (fuel : Nat) :
    ∀ (n : Nat), ∀ b ∈ natToDigitsF fuel n, 48 ≤ b ∧ b ≤ 57 := by
  induction fuel with
  | zero =>
    intro n b hb
    simp [natToDigitsF] at hb
    have : n % 10 < 10 := Nat.mod_lt n (by omega)
    omega
  | succ fuel ih =>
    intro n b hb
    rw [natToDigitsF] at hb
    by_cases h : n < 10
    · rw [if_pos h] at hb
      simp at hb
      omega
    · rw [if_neg h] at hb
      rcases List.mem_append.mp hb with h1 | h2
      · exact ih (n / 10) b h1
      · simp at h2
        have : n % 10 < 10 := Nat.mod_lt n (by omega)
        omega

theorem natToDigits_mem_digit (n : Nat) :
    ∀ b ∈ natToDigits n, 48 ≤ b ∧ b ≤ 57 :=
  natToDigitsF_mem_digit n n

theorem digitsVal_append (a : Nat) (xs ys : List Nat) :
    digitsVal a (xs ++ ys) =
      (digitsVal a xs).bind (fun a' => digitsVal a' ys) := by
  induction xs generalizing a with
  | nil => simp [digitsVal]
  | cons b bs ih =>
    simp only [List.cons_append, digitsVal]
    by_cases hb : 48 ≤ b ∧ b ≤ 57
    · simp only [if_pos hb]
      exact ih _
    · simp [if_neg hb]

theorem digitsVal_natToDigitsF (fuel : Nat) :
    ∀ (n : Nat), n < 10 ^ (fuel + 1) → ∀ (a : Nat),
      digitsVal a (natToDigitsF fuel n) =
        some (a * 10 ^ (natToDigitsF fuel n).length + n) := by
  induction fuel with
  | zero =>
    intro n hn a
    have hn10 : n < 10 := by simpa using hn
    simp only [natToDigitsF, List.length_singleton, pow_one]
    have hmod : n % 10 = n := Nat.mod_eq_of_lt hn10
    simp only [hmod, digitsVal]
    rw [if_pos (by omega)]
    congr 1
    omega
  | succ fuel ih =>
    intro n hn a
    rw [natToDigitsF]
    by_cases h : n < 10
    · rw [if_pos h]
      simp only [digitsVal, List.length_singleton, pow_one]
      rw [if_pos (by omega)]
      congr 1
      omega
    · rw [if_neg h]
      have hdiv : n / 10 < 10 ^ (fuel + 1) := by
        rw [Nat.div_lt_iff_lt_mul (by omega)]
        calc n < 10 ^ (fuel + 1 + 1) := hn
          _ = 10 ^ (fuel + 1) * 10 := by rw [pow_succ]
      rw [digitsVal_append, ih (n / 10) hdiv a]
      show digitsVal (a * 10 ^ (natToDigitsF fuel (n / 10)).length + n / 10)
        [48 + n % 10] = _
      simp only [digitsVal]
      rw [if_pos (by have := Nat.mod_lt n (y := 10) (by omega); omega)]
      simp only [List.length_append, List.length_singleton]
      congr 1
      have h1 : 48 + n % 10 - 48 = n % 10 := by omega
      rw [h1, pow_succ]
      have h2 : n / 10 * 10 + n % 10 = n := by omega
      calc (a * 10 ^ (natToDigitsF fuel (n / 10)).length + n / 10) * 10 + n % 10
          = a * (10 ^ (natToDigitsF fuel (n / 10)).length * 10) +
              (n / 10 * 10 + n % 10) := by ring
        _ = a * (10 ^ (natToDigitsF fuel (n / 10)).length * 10) + n := by rw [h2]

theorem digitsVal_natToDigits (a n : Nat) :
    digitsVal a (natToDigits n) =
      some (a * 10 ^ (natToDigits n).length + n) := by
  have hlt : n < 10 ^ (n + 1) := by
    calc n < 10 ^ n := Nat.lt_pow_self (by omega) n
      _ ≤ 10 ^ (n + 1) := Nat.pow_le_pow_right (by omega) (Nat.le_succ n)
  exact digitsVal_natToDigitsF n n hlt a

theorem parseDigits_natToDigits (n : Nat) :
    parseDigits (natToDigits n) = some n := by
  rw [parseDigits, if_neg (natToDigits_ne_nil n), digitsVal_natToDigits]
  simp

theorem parseInt_natToDigits (n : Nat) :
    parseInt (natToDigits n) = some (n : Int) := by
  rcases hd : natToDigits n with _ | ⟨b, rest⟩
  · exact absurd hd (natToDigits_ne_nil n)
  · have hb : 48 ≤ b ∧ b ≤ 57 := by
      apply natToDigits_mem_digit n
      rw [hd]
      exact List.mem_cons_self b rest
    rw [parseInt]
    rw [if_neg (by omega), if_neg (by omega)]
    rw [← hd, parseDigits_natToDigits]
    simp

theorem takeLine_append (xs rest : List Nat) (h : 10 ∉ xs) :
    takeLine (xs ++ 10 :: rest) = xs ++ [10] := by
  induction xs with
  | nil => simp [takeLine]
  | cons b bs ih =>
    simp only [List.cons_append, takeLine]
    have hb : b ≠ 10 := fun hc => h (by simp [hc])
    rw [if_neg hb]
    simp only [List.append_eq]
    rw [ih (fun hc => h (List.mem_cons_of_mem b hc))]

theorem readline_append (xs rest : List Nat) (c : Bool) (h : 10 ∉ xs) :
    RFile.readline ⟨xs ++ 10 :: rest, c⟩ = (xs ++ [10], ⟨rest, c⟩) := by
  simp only [RFile.readline, takeLine_append xs rest h]
  congr 1
  simp only [List.length_append, List.length_singleton]
  have : xs ++ 10 :: rest = (xs ++ [10]) ++ rest := by simp
  rw [this]
  congr 1
  rw [List.drop_left']
  simp

theorem hasPrefixB_append (p rest : List Nat) :
    hasPrefixB p (p ++ rest) = true := by
  induction p with
  | nil => simp [hasPrefixB]
  | cons b bs ih => simp [hasPrefixB, ih]

theorem occursSub_eq_false (c : Nat) (cs xs : List Nat) (h : c ∉ xs) :
    occursSub (c :: cs) xs = false := by
  induction xs with
  | nil => simp [occursSub]
  | cons x ys ih =>
    simp only [occursSub, hasPrefixB]
    have hc : c ≠ x := fun hc => h (by simp [hc])
    rw [ih (fun hm => h (List.mem_cons_of_mem x hm))]
    simp [hc]

theorem mem_dropWhile_of_neg {p : Nat → Bool} {b : Nat} {l : List Nat}
    (hp : p b = false) (hm : b ∈ l) : b ∈ l.dropWhile p := by
  induction l with
  | nil => simp at hm
  | cons x xs ih =>
    by_cases hx : p x
    · rw [List.dropWhile_cons_of_pos hx]
      rcases List.mem_cons.mp hm with h1 | h2
      · subst h1
        rw [hp] at hx
        simp at hx
      · exact ih h2
    · rw [List.dropWhile_cons_of_neg (by simpa using hx)]
      exact hm

theorem stripB_ne_nil_of_mem {b : Nat} {l : List Nat}
    (hm : b ∈ l) (hb : isWS b = false) : stripB l ≠ [] := by
  intro hc
  simp only [stripB] at hc
  have h1 : b ∈ l.dropWhile isWS := mem_dropWhile_of_neg hb hm
  have h2 : b ∈ (l.dropWhile isWS).reverse := List.mem_reverse.mpr h1
  have h3 : b ∈ (l.dropWhile isWS).reverse.dropWhile isWS :=
    mem_dropWhile_of_neg hb h2
  rw [List.reverse_eq_nil_iff.mp hc] at h3
  simp at h3

theorem stripB_append_crlf (ds : List Nat) (hne : ds ≠ [])
    (hd : ∀ b ∈ ds, isWS b = false) : stripB (ds ++ [13, 10]) = ds := by
  rcases ds with _ | ⟨d, ds'⟩
  · exact absurd rfl hne
  · simp only [stripB, List.cons_append]
    rw [List.dropWhile_cons_of_neg (by simp [hd d (by simp)])]
    rw [show (d :: (ds' ++ [13, 10])).reverse = 10 :: 13 :: (d :: ds').reverse by
      simp]
    rw [List.dropWhile_cons_of_pos (by simp [isWS])]
    rw [List.dropWhile_cons_of_pos (by simp [isWS])]
    rcases hr : (d :: ds').reverse with _ | ⟨e, es⟩
    · simp at hr
    · have he : e ∈ d :: ds' := by
        rw [← List.mem_reverse, hr]
        exact List.mem_cons_self e es
      rw [List.dropWhile_cons_of_neg (by simp [hd e he])]
      rw [← hr]
      simp

/-- The `Content-Type` header value the writer always emits. -/
def ctBytes : List Nat :=
  strBytes "Content-Type: application/vscode-jsonrpc; charset=utf8"

/-- A well-formed `Content-Length` header line advertising `n`. -/
def clLineBytes (n : Nat) : List Nat := clMarker ++ natToDigits n ++ [13, 10]

theorem clMarker_cons : clMarker = 67 :: List.tail clMarker := by decide

theorem not_mem_clMarker_10 : 10 ∉ clMarker := by decide

theorem not_mem_ctBytes_10 : 10 ∉ ctBytes := by decide

theorem isWS_digit {b : Nat} (h1 : 48 ≤ b) (h2 : b ≤ 57) : isWS b = false := by
  simp only [isWS, Bool.or_eq_false_iff, decide_eq_false_iff_not]
  omega

theorem frameBytes_decomp (body : List Nat) :
    frameBytes body =
      clLineBytes body.length ++ (ctBytes ++ [13, 10]) ++ ([13, 10] ++ body) := by
  have hsplit :
      strBytes "\r\nContent-Type: application/vscode-jsonrpc; charset=utf8\r\n\r\n" =
        [13, 10] ++ ctBytes ++ [13, 10] ++ [13, 10] := by decide
  simp only [frameBytes, clLineBytes, hsplit]
  simp [List.append_assoc]

theorem occursSub_marker_digits (n : Nat) :
    occursSub clMarker (natToDigits n ++ [13, 10]) = false := by
  rw [clMarker_cons]
  apply occursSub_eq_false
  intro hm
  rcases List.mem_append.mp hm with h1 | h2
  · have := natToDigits_mem_digit n 67 h1
    omega
  · simp at h2

theorem content_length_clLine (n : Nat) :
    JsonRpcStreamReader.content_length (clMarker ++ natToDigits n ++ [13, 10]) =
      .ok (some (n : Int)) := by
  rw [List.append_assoc]
  rw [JsonRpcStreamReader.content_length]
  rw [if_pos (hasPrefixB_append clMarker _)]
  have hdrop : (clMarker ++ (natToDigits n ++ [13, 10])).drop clMarker.length =
      natToDigits n ++ [13, 10] := List.drop_left clMarker _
  simp only [hdrop]
  rw [if_neg (by simp [occursSub_marker_digits n])]
  rw [stripB_append_crlf (natToDigits n) (natToDigits_ne_nil n)
    (fun b hb => isWS_digit (natToDigits_mem_digit n b hb).1
      (natToDigits_mem_digit n b hb).2)]
  rw [parseInt_natToDigits]

theorem content_length_no_marker (line : List Nat)
    (h : hasPrefixB clMarker line = false) :
    JsonRpcStreamReader.content_length line = .ok none := by
  rw [JsonRpcStreamReader.content_length, if_neg (by simp [h])]

theorem skipHeaders_exit (line : List Nat) (r : RFile)
    (h : line = [] ∨ stripB line = []) :
    JsonRpcStreamReader.skipHeaders line r = (line, r) := by
  rw [JsonRpcStreamReader.skipHeaders, if_pos h]

theorem skipHeaders_step (line : List Nat) (r : RFile)
    (h1 : line ≠ []) (h2 : stripB line ≠ []) (h3 : r.data ≠ []) :
    JsonRpcStreamReader.skipHeaders line r =
      JsonRpcStreamReader.skipHeaders (r.readline).1 (r.readline).2 := by
  rw [JsonRpcStreamReader.skipHeaders]
  rw [if_neg (by simp [h1, h2]), dif_neg h3]

theorem stripB_clLine_ne_nil (n : Nat) :
    stripB (clMarker ++ natToDigits n ++ [13, 10]) ≠ [] := by
  apply stripB_ne_nil_of_mem (b := 67)
  · rw [clMarker_cons]
    simp
  · decide

theorem stripB_ctLine_ne_nil : stripB (ctBytes ++ [13, 10]) ≠ [] := by
  apply stripB_ne_nil_of_mem (b := 67)
  · have : ctBytes = 67 :: List.tail ctBytes := by decide
    rw [this]
    simp
  · decide

theorem stripB_crlf : stripB [13, 10] = [] := by decide

/-- Reading one well-formed frame: `_read_message` consumes exactly the
frame and returns exactly its body. -/
theorem read_message_frame (body : List Nat) (c : Bool) :
    JsonRpcStreamReader.read_message ⟨frameBytes body, c⟩ =
      (.ok (some body), ⟨[], c⟩) := by
  have h10a : 10 ∉ clMarker ++ natToDigits body.length ++ [13] := by
    intro hm
    rcases List.mem_append.mp hm with hm1 | hm2
    · rcases List.mem_append.mp hm1 with hma | hmb
      · exact not_mem_clMarker_10 hma
      · have := natToDigits_mem_digit body.length 10 hmb
        omega
    · simp at hm2
  have h10b : 10 ∉ ctBytes ++ [13] := by
    intro hm
    rcases List.mem_append.mp hm with hm1 | hm2
    · exact not_mem_ctBytes_10 hm1
    · simp at hm2
  have hline1 : RFile.readline ⟨frameBytes body, c⟩ =
      (clMarker ++ natToDigits body.length ++ [13, 10],
        ⟨(ctBytes ++ [13, 10]) ++ ([13, 10] ++ body), c⟩) := by
    rw [frameBytes_decomp]
    have hshape : clLineBytes body.length ++ (ctBytes ++ [13, 10]) ++ ([13, 10] ++ body) =
        (clMarker ++ natToDigits body.length ++ [13]) ++
          10 :: ((ctBytes ++ [13, 10]) ++ ([13, 10] ++ body)) := by
      simp [clLineBytes, List.append_assoc]
    rw [hshape, readline_append _ _ c h10a]
    simp [List.append_assoc]
  have hline2 : RFile.readline ⟨(ctBytes ++ [13, 10]) ++ ([13, 10] ++ body), c⟩ =
      (ctBytes ++ [13, 10], ⟨[13, 10] ++ body, c⟩) := by
    have hshape : (ctBytes ++ [13, 10]) ++ ([13, 10] ++ body) =
        (ctBytes ++ [13]) ++ 10 :: ([13, 10] ++ body) := by
      simp [List.append_assoc]
    rw [hshape, readline_append _ _ c h10b]
    simp [List.append_assoc]
  have hline3 : RFile.readline ⟨[13, 10] ++ body, c⟩ =
      ([13, 10], ⟨body, c⟩) := by
    have hshape : [13, 10] ++ body = [13] ++ 10 :: body := by simp
    rw [hshape, readline_append _ _ c (by decide)]
    rfl
  have hclne : clMarker ++ natToDigits body.length ++ [13, 10] ≠ [] := by
    rw [clMarker_cons]
    simp
  have hctne : ctBytes ++ [13, 10] ≠ [] := by
    have : ctBytes = 67 :: List.tail ctBytes := by decide
    rw [this]
    simp
  have hsk : JsonRpcStreamReader.skipHeaders
      (clMarker ++ natToDigits body.length ++ [13, 10])
      ⟨(ctBytes ++ [13, 10]) ++ ([13, 10] ++ body), c⟩ = ([13, 10], ⟨body, c⟩) := by
    rw [skipHeaders_step _ _ hclne (stripB_clLine_ne_nil body.length) (by simp)]
    rw [hline2]
    rw [skipHeaders_step _ _ hctne stripB_ctLine_ne_nil (by simp)]
    rw [hline3]
    exact skipHeaders_exit _ _ (Or.inr stripB_crlf)
  simp only [JsonRpcStreamReader.read_message, hline1]
  rw [if_neg hclne]
  rw [content_length_clLine body.length]
  simp only [hsk]
  rw [if_neg (by simp)]
  simp only [RFile.read]
  rw [if_neg (by omega)]
  simp

theorem listenLoop_closed (loads : List Nat → Option Json)
    (consumer : Json → Option PyExc) (reqStr : Option (Option (List Nat)))
    (r : RFile) (acc : List Json) (hc : r.closed = true) :
    JsonRpcStreamReader.listenLoop loads consumer reqStr r acc = (acc, .normal) := by
  rw [JsonRpcStreamReader.listenLoop, if_pos hc]

theorem listenLoop_nil (loads : List Nat → Option Json)
    (consumer : Json → Option PyExc) (reqStr : Option (Option (List Nat)))
    (r : RFile) (acc : List Json) (hc : r.closed = false) (hn : r.data = []) :
    JsonRpcStreamReader.listenLoop loads consumer reqStr r acc = (acc, .normal) := by
  rw [JsonRpcStreamReader.listenLoop, if_neg (by simp [hc]), dif_pos hn]

theorem listenLoop_ok_some (loads : List Nat → Option Json)
    (consumer : Json → Option PyExc) (reqStr : Option (Option (List Nat)))
    (r : RFile) (acc : List Json) (bs : List Nat) (r' : RFile)
    (hc : r.closed = false) (hn : r.data ≠ [])
    (hE : JsonRpcStreamReader.read_message r = (.ok (some bs), r')) :
    JsonRpcStreamReader.listenLoop loads consumer reqStr r acc =
      match loads bs with
      | none => JsonRpcStreamReader.listenLoop loads consumer (some (some bs)) r' acc
      | some j =>
        match consumer j with
        | none =>
          JsonRpcStreamReader.listenLoop loads consumer (some (some bs)) r' (acc ++ [j])
        | some .valueError =>
          JsonRpcStreamReader.listenLoop loads consumer (some (some bs)) r' (acc ++ [j])
        | some e => (acc ++ [j], .raised e) := by
  rw [JsonRpcStreamReader.listenLoop, if_neg (by simp [hc]), dif_neg hn]
  split
  · rename_i heq
    rw [hE] at heq
    simp at heq
  · rename_i heq
    rw [hE] at heq
    simp at heq
  · rename_i bs0 r0 heq
    rw [hE] at heq
    obtain ⟨h1, h2⟩ := Prod.mk.injEq .. ▸ heq
    obtain rfl : bs0 = bs := by
      have := Except.ok.injEq .. ▸ h1
      exact (Option.some.injEq .. ▸ this).symm
    obtain rfl : r' = r0 := h2
    rfl

theorem listenLoop_ok_none (loads : List Nat → Option Json)
    (consumer : Json → Option PyExc) (reqStr : Option (Option (List Nat)))
    (r : RFile) (acc : List Json) (r' : RFile)
    (hc : r.closed = false) (hn : r.data ≠ [])
    (hE : JsonRpcStreamReader.read_message r = (.ok none, r')) :
    JsonRpcStreamReader.listenLoop loads consumer reqStr r acc = (acc, .normal) := by
  rw [JsonRpcStreamReader.listenLoop, if_neg (by simp [hc]), dif_neg hn]
  split
  · rename_i heq
    rw [hE] at heq
    simp at heq
  · rfl
  · rename_i heq
    rw [hE] at heq
    simp at heq

theorem listenLoop_error (loads : List Nat → Option Json)
    (consumer : Json → Option PyExc) (reqStr : Option (Option (List Nat)))
    (r : RFile) (acc : List Json) (e : PyExc) (r' : RFile)
    (hc : r.closed = false) (hn : r.data ≠ [])
    (hE : JsonRpcStreamReader.read_message r = (.error e, r'))
    (hc' : r'.closed = false) :
    JsonRpcStreamReader.listenLoop loads consumer reqStr r acc =
      match reqStr with
      | none => (acc, .raised .unboundLocal)
      | some none => (acc, .normal)
      | some (some bs) =>
        match loads bs with
        | none => JsonRpcStreamReader.listenLoop loads consumer (some (some bs)) r' acc
        | some j =>
          match consumer j with
          | none =>
            JsonRpcStreamReader.listenLoop loads consumer (some (some bs)) r' (acc ++ [j])
          | some .valueError =>
            JsonRpcStreamReader.listenLoop loads consumer (some (some bs)) r' (acc ++ [j])
          | some e2 => (acc ++ [j], .raised e2) := by
  rw [JsonRpcStreamReader.listenLoop, if_neg (by simp [hc]), dif_neg hn]
  split
  · rename_i e0 r0 heq
    rw [hE] at heq
    obtain ⟨h1, h2⟩ := Prod.mk.injEq .. ▸ heq
    obtain rfl : r' = r0 := h2
    rw [if_neg (by simp [hc'])]
  · rename_i heq
    rw [hE] at heq
    simp at heq
  · rename_i heq
    rw [hE] at heq
    simp at heq

theorem clMarker_ne_nil : clMarker ≠ [] := by decide

theorem frameBytes_ne_nil (body : List Nat) : frameBytes body ≠ [] := by
  simp only [frameBytes]
  simp [List.append_eq_nil, clMarker_ne_nil]

/-- On an open, non-faulty stream, a successful serialisation appends
exactly one complete frame to the output buffer. -/
theorem write_ok (dumps : Json → Except PyExc (List Nat)) (message : Json)
    (body : List Nat) (w : WFile) (hc : w.closed = false)
    (hw : w.writeRaises = false) (hd : dumps message = .ok body) :
    (JsonRpcStreamWriter.write dumps message w).file.buf =
      w.buf ++ frameBytes body := by
  simp only [JsonRpcStreamWriter.write, JsonRpcStreamWriter.tryWriteBody, hd]
  rw [if_neg (by simp [hc])]
  simp only [WFile.write]
  rw [if_neg (by simp [hw])]
  simp only [WFile.flush]
  by_cases hf : w.flushRaises
  · simp [hf]
  · simp [hf]

/-- A one-point JSON codec pair used to instantiate the
codec-parametric theorems at a concrete input: every value serialises
to the single byte `'1'`, which parses back to the JSON number 1. -/
def dumps0 : Json → Except PyExc (List Nat) := fun _ => .ok [49]

def loads0 : List Nat → Option Json :=
  fun bs => if bs = [49] then some (.num 1) else none

/-- A consumer callback that never raises. -/
def cons0 : Json → Option PyExc := fun _ => none

/-- C1: writing any JSON-serializable value `v` into a fresh buffer and
then running `listen` over that buffer's contents invokes the consumer
exactly once, with a value structurally equal to `v` (stated for any
codec pair `dumps`/`loads` that successfully round-trips `v`, the codec
being an external collaborator of this layer). -/
theorem writer_reader_roundtrip (dumps : Json → Except PyExc (List Nat))
    (loads : List Nat → Option Json) (consumer : Json → Option PyExc)
    (v : Json) (body : List Nat) (hd : dumps v = .ok body)
    (hl : loads body = some v) (hcons : consumer v = none) :
    JsonRpcStreamReader.listen loads consumer
      ⟨(JsonRpcStreamWriter.write dumps v ⟨[], false, false, false⟩).file.buf,
        false⟩ = ([v], .normal) := by
  rw [write_ok dumps v body ⟨[], false, false, false⟩ rfl rfl hd]
  rw [List.nil_append]
  rw [JsonRpcStreamReader.listen]
  rw [listenLoop_ok_some loads consumer none ⟨frameBytes body, false⟩ [] body
    ⟨[], false⟩ rfl (frameBytes_ne_nil body) (read_message_frame body false)]
  simp only [hl, hcons]
  rw [listenLoop_nil loads consumer _ _ _ rfl rfl]
  simp

theorem writer_reader_roundtrip_witness :
    dumps0 (Json.num 1) = .ok [49] ∧ loads0 [49] = some (Json.num 1) ∧
      cons0 (Json.num 1) = none ∧
      JsonRpcStreamReader.listen loads0 cons0
        ⟨(JsonRpcStreamWriter.write dumps0 (Json.num 1)
            ⟨[], false, false, false⟩).file.buf, false⟩ =
          ([Json.num 1], .normal) :=
  ⟨rfl, rfl, rfl,
    writer_reader_roundtrip dumps0 loads0 cons0 (Json.num 1) [49] rfl rfl rfl⟩

/-- C4: `write` never propagates an exception to its caller: for every
message, every codec behaviour and every stream behaviour (closed or
open, write or flush raising), the `raised` component of the result is
`none`. -/
theorem write_never_raises (dumps : Json → Except PyExc (List Nat))
    (message : Json) (w : WFile) :
    (JsonRpcStreamWriter.write dumps message w).raised = none := by
  simp only [JsonRpcStreamWriter.write]
  by_cases hc : w.closed
  · simp [hc]
  · rw [if_neg (by simp [hc])]
    rcases h : JsonRpcStreamWriter.tryWriteBody dumps message w with ⟨w', e⟩
    cases e <;> simp

/-- C5: writing after `close` is a silent no-op: the stream state is
unchanged (in particular no bytes are appended to the buffer), nothing
is raised, and nothing is even logged. -/
theorem write_after_close_noop (dumps : Json → Except PyExc (List Nat))
    (message : Json) (w : WFile) :
    JsonRpcStreamWriter.write dumps message (JsonRpcStreamWriter.close w) =
      ⟨JsonRpcStreamWriter.close w, none, false⟩ := by
  simp only [JsonRpcStreamWriter.write, JsonRpcStreamWriter.close]
  simp

theorem readline_clLine (n : Nat) (rest : List Nat) (c : Bool) :
    RFile.readline ⟨clLineBytes n ++ rest, c⟩ =
      (clMarker ++ natToDigits n ++ [13, 10], ⟨rest, c⟩) := by
  have h10 : 10 ∉ clMarker ++ natToDigits n ++ [13] := by
    intro hm
    rcases List.mem_append.mp hm with hm1 | hm2
    · rcases List.mem_append.mp hm1 with hma | hmb
      · exact not_mem_clMarker_10 hma
      · have := natToDigits_mem_digit n 10 hmb
        omega
    · simp at hm2
  have hshape : clLineBytes n ++ rest =
      (clMarker ++ natToDigits n ++ [13]) ++ 10 :: rest := by
    simp [clLineBytes, List.append_assoc]
  rw [hshape, readline_append _ _ c h10]
  simp [List.append_assoc]

theorem readline_crlf (tail : List Nat) (c : Bool) :
    RFile.readline ⟨[13, 10] ++ tail, c⟩ = ([13, 10], ⟨tail, c⟩) := by
  have hshape : [13, 10] ++ tail = [13] ++ 10 :: tail := by simp
  rw [hshape, readline_append _ _ c (by decide)]
  rfl

theorem readline_ctLine (tail : List Nat) (c : Bool) :
    RFile.readline ⟨(ctBytes ++ [13, 10]) ++ tail, c⟩ =
      (ctBytes ++ [13, 10], ⟨tail, c⟩) := by
  have h10 : 10 ∉ ctBytes ++ [13] := by
    intro hm
    rcases List.mem_append.mp hm with hm1 | hm2
    · exact not_mem_ctBytes_10 hm1
    · simp at hm2
  have hshape : (ctBytes ++ [13, 10]) ++ tail = (ctBytes ++ [13]) ++ 10 :: tail := by
    simp [List.append_assoc]
  rw [hshape, readline_append _ _ c h10]
  simp [List.append_assoc]

theorem clLine_ne_nil (n : Nat) : clMarker ++ natToDigits n ++ [13, 10] ≠ [] := by
  rw [clMarker_cons]
  simp

theorem ctLine_ne_nil : ctBytes ++ [13, 10] ≠ [] := by
  have h : ctBytes = 67 :: List.tail ctBytes := by decide
  rw [h]
  simp

/-- `_read_message` on a stream that starts with a well-formed
`Content-Length` header line, the writer's `Content-Type` line and the
blank line: the advertised count is read out of whatever follows. -/
theorem read_message_cl_ct (n : Nat) (tail : List Nat) (c : Bool) :
    JsonRpcStreamReader.read_message
      ⟨clLineBytes n ++ ((ctBytes ++ [13, 10]) ++ ([13, 10] ++ tail)), c⟩ =
      (.ok (some (tail.take n)), ⟨tail.drop n, c⟩) := by
  have hline1 := readline_clLine n ((ctBytes ++ [13, 10]) ++ ([13, 10] ++ tail)) c
  have hsk : JsonRpcStreamReader.skipHeaders
      (clMarker ++ natToDigits n ++ [13, 10])
      ⟨(ctBytes ++ [13, 10]) ++ ([13, 10] ++ tail), c⟩ = ([13, 10], ⟨tail, c⟩) := by
    rw [skipHeaders_step _ _ (clLine_ne_nil n) (stripB_clLine_ne_nil n) (by simp)]
    rw [readline_ctLine ([13, 10] ++ tail) c]
    rw [skipHeaders_step _ _ ctLine_ne_nil stripB_ctLine_ne_nil (by simp)]
    rw [readline_crlf tail c]
    exact skipHeaders_exit _ _ (Or.inr stripB_crlf)
  simp only [JsonRpcStreamReader.read_message, hline1]
  rw [if_neg (clLine_ne_nil n)]
  rw [content_length_clLine n]
  simp only [hsk]
  rw [if_neg (by simp)]
  simp only [RFile.read]
  rw [if_neg (by omega)]
  simp

/-- A complete frame followed by further stream content: the frame's
body is returned exactly and the rest is left unread. -/
theorem read_message_frame_append (body extra : List Nat) (c : Bool) :
    JsonRpcStreamReader.read_message ⟨frameBytes body ++ extra, c⟩ =
      (.ok (some body), ⟨extra, c⟩) := by
  have hshape : frameBytes body ++ extra =
      clLineBytes body.length ++
        ((ctBytes ++ [13, 10]) ++ ([13, 10] ++ (body ++ extra))) := by
    rw [frameBytes_decomp]
    simp [List.append_assoc]
  rw [hshape, read_message_cl_ct body.length (body ++ extra) c]
  simp [List.take_left, List.drop_left]

/-- `_read_message` on a `Content-Length` line followed directly by the
blank header terminator: the advertised count is read from the rest. -/
theorem read_message_clheader (n : Nat) (tail : List Nat) (c : Bool) :
    JsonRpcStreamReader.read_message ⟨clLineBytes n ++ ([13, 10] ++ tail), c⟩ =
      (.ok (some (tail.take n)), ⟨tail.drop n, c⟩) := by
  have hline1 := readline_clLine n ([13, 10] ++ tail) c
  have hsk : JsonRpcStreamReader.skipHeaders
      (clMarker ++ natToDigits n ++ [13, 10]) ⟨[13, 10] ++ tail, c⟩ =
      ([13, 10], ⟨tail, c⟩) := by
    rw [skipHeaders_step _ _ (clLine_ne_nil n) (stripB_clLine_ne_nil n) (by simp)]
    rw [readline_crlf tail c]
    exact skipHeaders_exit _ _ (Or.inr stripB_crlf)
  simp only [JsonRpcStreamReader.read_message, hline1]
  rw [if_neg (clLine_ne_nil n)]
  rw [content_length_clLine n]
  simp only [hsk]
  rw [if_neg (by simp)]
  simp only [RFile.read]
  rw [if_neg (by omega)]
  simp

/-- A header line whose `Content-Length` value is unparsable. -/
def badHeader : List Nat := strBytes "Content-Length: XYZ\r\n"

/-- A header line that is not a `Content-Length` line. -/
def xHeader : List Nat := strBytes "X-Other: yes\r\n"

theorem read_message_badHeader (rest : List Nat) (c : Bool) :
    JsonRpcStreamReader.read_message ⟨badHeader ++ rest, c⟩ =
      (.error .valueError, ⟨rest, c⟩) := by
  have hsplit : badHeader = strBytes "Content-Length: XYZ\r" ++ [10] := by decide
  have hshape : badHeader ++ rest = strBytes "Content-Length: XYZ\r" ++ 10 :: rest := by
    rw [hsplit]
    simp
  have hline : RFile.readline ⟨badHeader ++ rest, c⟩ = (badHeader, ⟨rest, c⟩) := by
    rw [hshape, readline_append _ _ c (by decide)]
    rw [← hsplit]
  have hcl : JsonRpcStreamReader.content_length badHeader = .error .valueError := rfl
  simp only [JsonRpcStreamReader.read_message, hline]
  rw [if_neg (by decide), hcl]

theorem read_message_crlf (c : Bool) :
    JsonRpcStreamReader.read_message ⟨[13, 10], c⟩ = (.ok (some []), ⟨[], c⟩) := by
  have h1 := readline_crlf [] c
  simp only [List.append_nil] at h1
  have hcl : JsonRpcStreamReader.content_length [13, 10] = .ok none := rfl
  simp only [JsonRpcStreamReader.read_message, h1]
  rw [if_neg (by decide), hcl]
  simp [RFile.read, skipHeaders_exit _ _ (Or.inr stripB_crlf)]

/-- `_read_message` on a frame whose first header line is not a
`Content-Length` line but whose second one is: no length is extracted,
`read` is called with `None` and everything after the blank line is
returned, whatever `n` said. -/
theorem read_message_x_then_cl (n : Nat) (tail : List Nat) (c : Bool) :
    JsonRpcStreamReader.read_message
      ⟨xHeader ++ (clLineBytes n ++ ([13, 10] ++ tail)), c⟩ =
      (.ok (some tail), ⟨[], c⟩) := by
  have hsplit : xHeader = strBytes "X-Other: yes\r" ++ [10] := by decide
  have hshape : xHeader ++ (clLineBytes n ++ ([13, 10] ++ tail)) =
      strBytes "X-Other: yes\r" ++ 10 :: (clLineBytes n ++ ([13, 10] ++ tail)) := by
    rw [hsplit]
    simp
  have hline : RFile.readline ⟨xHeader ++ (clLineBytes n ++ ([13, 10] ++ tail)), c⟩ =
      (xHeader, ⟨clLineBytes n ++ ([13, 10] ++ tail), c⟩) := by
    rw [hshape, readline_append _ _ c (by decide)]
    rw [← hsplit]
  have hcl : JsonRpcStreamReader.content_length xHeader = .ok none := rfl
  have hsk : JsonRpcStreamReader.skipHeaders xHeader
      ⟨clLineBytes n ++ ([13, 10] ++ tail), c⟩ = ([13, 10], ⟨tail, c⟩) := by
    rw [skipHeaders_step _ _ (by decide) (by decide) (by simp [clLineBytes])]
    rw [readline_clLine n ([13, 10] ++ tail) c]
    rw [skipHeaders_step _ _ (clLine_ne_nil n) (stripB_clLine_ne_nil n) (by simp)]
    rw [readline_crlf tail c]
    exact skipHeaders_exit _ _ (Or.inr stripB_crlf)
  simp only [JsonRpcStreamReader.read_message, hline]
  rw [if_neg (by decide), hcl]
  simp only [hsk]
  rw [if_neg (by decide)]
  rfl

/-- C7: `Content-Length` is extracted only from a frame's very first
line.  First conjunct: when the first line is some other header and the
`Content-Length` header sits on the second line, no length is extracted
— the body `read` is the read-to-end `read(None)`, returning all
remaining bytes no matter what `n` advertised.  Second conjunct: the
same `Content-Length` line in first position does govern the read. -/
theorem content_length_first_line_only (n : Nat) (tail : List Nat) :
    (JsonRpcStreamReader.read_message
        ⟨xHeader ++ (clLineBytes n ++ ([13, 10] ++ tail)), false⟩ =
        (.ok (some tail), ⟨[], false⟩)) ∧
      (JsonRpcStreamReader.read_message ⟨clLineBytes n ++ ([13, 10] ++ tail), false⟩ =
        (.ok (some (tail.take n)), ⟨tail.drop n, false⟩)) :=
  ⟨read_message_x_then_cl n tail false, read_message_clheader n tail false⟩

/-- C3 (failing input): a frame with a corrupted `Content-Length`
value followed by a perfectly well-formed frame.  Contrary to the
claimed recovery, the reader raises `UnboundLocalError` out of `listen`
on the first iteration (the `except ValueError` handler logs and falls
through to the `request_str is None` test with `request_str` never
assigned) and the consumer is never invoked. -/
theorem corrupted_header_unboundlocal :
    JsonRpcStreamReader.listen loads0 cons0
      ⟨badHeader ++ ([13, 10] ++ frameBytes [49]), false⟩ =
      ([], .raised .unboundLocal) := by
  rw [JsonRpcStreamReader.listen]
  rw [listenLoop_error loads0 cons0 none _ [] .valueError
    ⟨[13, 10] ++ frameBytes [49], false⟩ rfl
    (by rw [show badHeader = 67 :: List.tail badHeader from by decide]; simp)
    (read_message_badHeader ([13, 10] ++ frameBytes [49]) false) rfl]

/-- C10: the stale `request_str` hazard in `listen`.  First conjunct:
on a first-iteration `ValueError` from `_read_message` (stream still
open), `request_str` has never been assigned, so `listen` raises
`UnboundLocalError` without invoking the consumer.  Second conjunct:
when a good frame precedes the corrupted one, `request_str` still holds
the previous frame's body at the fall-through, so that body is parsed
and delivered to the consumer a second time. -/
theorem stale_request_str_behaviour :
    (JsonRpcStreamReader.listen loads0 cons0
        ⟨badHeader ++ ([13, 10] ++ frameBytes [49]), false⟩ =
        ([], .raised .unboundLocal)) ∧
      (JsonRpcStreamReader.listen loads0 cons0
        ⟨frameBytes [49] ++ (badHeader ++ [13, 10]), false⟩ =
        ([Json.num 1, Json.num 1], .normal)) := by
  constructor
  · rw [JsonRpcStreamReader.listen]
    rw [listenLoop_error loads0 cons0 none _ [] .valueError
      ⟨[13, 10] ++ frameBytes [49], false⟩ rfl
      (by rw [show badHeader = 67 :: List.tail badHeader from by decide]; simp)
      (read_message_badHeader ([13, 10] ++ frameBytes [49]) false) rfl]
  · rw [JsonRpcStreamReader.listen]
    rw [listenLoop_ok_some loads0 cons0 none _ [] [49]
      ⟨badHeader ++ [13, 10], false⟩ rfl
      (by simp [List.append_eq_nil, frameBytes_ne_nil])
      (read_message_frame_append [49] (badHeader ++ [13, 10]) false)]
    simp only [loads0, cons0, if_pos]
    rw [listenLoop_error loads0 cons0 (some (some [49])) _ _ .valueError
      ⟨[13, 10], false⟩ rfl
      (by rw [show badHeader = 67 :: List.tail badHeader from by decide]; simp)
      (read_message_badHeader [13, 10] false) rfl]
    simp only [loads0, cons0, if_pos]
    rw [listenLoop_ok_some loads0 cons0 (some (some [49])) _ _ []
      ⟨[], false⟩ rfl (by decide) (read_message_crlf false)]
    simp only [loads0]
    rw [if_neg (by decide)]
    rw [listenLoop_nil loads0 cons0 _ _ _ rfl rfl]
    simp

/-- A consumer callback that raises `ValueError`. -/
def consVE : Json → Option PyExc := fun _ => some .valueError

/-- C6 counterexample: a consumer that raises `ValueError` does NOT
have its exception propagated: the reader's JSON-parse `except
ValueError` handler catches it, the loop continues and `listen`
returns normally — the claim's "every exception the callback raises
propagates" is false at this input. -/
theorem consumer_valueerror_swallowed :
    JsonRpcStreamReader.listen loads0 consVE ⟨frameBytes [49], false⟩ =
      ([Json.num 1], .normal) := by
  rw [JsonRpcStreamReader.listen]
  rw [listenLoop_ok_some loads0 consVE none _ [] [49] ⟨[], false⟩ rfl
    (frameBytes_ne_nil [49]) (read_message_frame [49] false)]
  simp only [loads0, consVE, if_pos]
  rw [listenLoop_nil loads0 consVE _ _ _ rfl rfl]
  simp

/-- C6 (amended): a consumer exception other than `ValueError` (and
its subclasses) is not caught by this layer: it propagates to the
caller of `listen` and terminates the read loop after the one
invocation. -/
theorem consumer_exception_propagation (loads : List Nat → Option Json)
    (consumer : Json → Option PyExc) (body : List Nat) (v : Json) (e : PyExc)
    (hl : loads body = some v) (hcons : consumer v = some e)
    (hne : e ≠ .valueError) :
    JsonRpcStreamReader.listen loads consumer ⟨frameBytes body, false⟩ =
      ([v], .raised e) := by
  rw [JsonRpcStreamReader.listen]
  rw [listenLoop_ok_some loads consumer none _ [] body ⟨[], false⟩ rfl
    (frameBytes_ne_nil body) (read_message_frame body false)]
  simp only [hl, hcons]
  cases e with
  | valueError => exact absurd rfl hne
  | unboundLocal => simp
  | other => simp

/-- A consumer callback that raises an exception outside `ValueError`. -/
def consOther : Json → Option PyExc := fun _ => some .other

theorem consumer_exception_propagation_witness :
    loads0 [49] = some (Json.num 1) ∧ consOther (Json.num 1) = some .other ∧
      PyExc.other ≠ .valueError ∧
      JsonRpcStreamReader.listen loads0 consOther ⟨frameBytes [49], false⟩ =
        ([Json.num 1], .raised .other) :=
  ⟨rfl, rfl, by decide,
    consumer_exception_propagation loads0 consOther [49] (Json.num 1) .other
      rfl rfl (by decide)⟩

/-- A two-point JSON codec decoder: the bytes `"17"` parse to the JSON
number 17, everything else fails to parse. -/
def loads17 : List Nat → Option Json :=
  fun bs => if bs = [49, 55] then some (.num 17) else none

/-- C8 counterexample: a stream advertising `Content-Length: 100` but
providing only the two bytes `"17"` before end-of-stream.  `read`
returns the short body, which parses as JSON, so the consumer IS
invoked for the partial frame — the claim's "for every such stream the
consumer is not invoked" is false at this input. -/
theorem truncated_parsable_body_delivered :
    JsonRpcStreamReader.listen loads17 cons0
      ⟨clLineBytes 100 ++ ([13, 10] ++ [49, 55]), false⟩ =
      ([Json.num 17], .normal) := by
  rw [JsonRpcStreamReader.listen]
  have hE : JsonRpcStreamReader.read_message
      ⟨clLineBytes 100 ++ ([13, 10] ++ [49, 55]), false⟩ =
      (.ok (some [49, 55]), ⟨[], false⟩) := by
    exact read_message_clheader 100 [49, 55] false
  rw [listenLoop_ok_some loads17 cons0 none _ [] [49, 55] ⟨[], false⟩ rfl
    (by simp [clLineBytes]) hE]
  simp only [loads17, cons0, if_pos]
  rw [listenLoop_nil loads17 cons0 _ _ _ rfl rfl]
  simp

/-- C8 (amended): a stream whose final frame advertises a
`Content-Length` larger than the bytes remaining before end-of-stream
makes `listen` terminate normally, without raising; the consumer is not
invoked for the partial frame provided its bytes fail to parse as
JSON. -/
theorem truncated_unparsable_body_dropped (loads : List Nat → Option Json)
    (consumer : Json → Option PyExc) (n : Nat) (trunc : List Nat)
    (hlen : trunc.length < n) (hl : loads trunc = none) :
    JsonRpcStreamReader.listen loads consumer
      ⟨clLineBytes n ++ ([13, 10] ++ trunc), false⟩ = ([], .normal) := by
  rw [JsonRpcStreamReader.listen]
  have htake : trunc.take n = trunc := List.take_of_length_le (le_of_lt hlen)
  have hdrop : trunc.drop n = [] := List.drop_eq_nil_of_le (le_of_lt hlen)
  have hE := read_message_clheader n trunc false
  rw [htake, hdrop] at hE
  rw [listenLoop_ok_some loads consumer none _ [] trunc ⟨[], false⟩ rfl
    (by simp [clLineBytes]) hE]
  simp only [hl]
  rw [listenLoop_nil loads consumer _ _ _ rfl rfl]

theorem truncated_unparsable_body_dropped_witness :
    ([120, 121] : List Nat).length < 100 ∧ loads0 [120, 121] = none ∧
      JsonRpcStreamReader.listen loads0 cons0
        ⟨clLineBytes 100 ++ ([13, 10] ++ [120, 121]), false⟩ = ([], .normal) :=
  ⟨by decide, rfl,
    truncated_unparsable_body_dropped loads0 cons0 100 [120, 121] (by decide) rfl⟩

/-- Lower-case hex digit byte. -/
def hexDigitByte (n : Nat) : Nat := if n < 10 then 48 + n else 87 + n

/-- Modelled from the spec: JSON string escaping of one code point as
the external codec (spec section 6) emits it without ASCII-escaping:
quote and backslash escaped, control characters in their short or
`\u00XX` forms, everything else as its UTF-8 bytes. -/
def escapeChar (c : Nat) : List Nat :=
  if c = 34 then [92, 34]
  else if c = 92 then [92, 92]
  else if c = 8 then [92, 98]
  else if c = 9 then [92, 116]
  else if c = 10 then [92, 110]
  else if c = 12 then [92, 102]
  else if c = 13 then [92, 114]
  else if c < 32 then [92, 117, 48, 48, hexDigitByte (c / 16), hexDigitByte (c % 16)]
  else utf8EncodeByte c

/-- Escaped JSON content of a string. -/
def strEsc (s : String) : List Nat :=
  (s.data.map (fun ch => escapeChar ch.toNat)).flatten

mutual
/-- Modelled from the spec: the external JSON codec's encoder (spec
section 6) with the compact `(',', ':')` separators the writer
configures, object keys in insertion order, no added whitespace. -/
def jsonEncode : Json → List Nat
  | .null => strBytes "null"
  | .bool true => strBytes "true"
  | .bool false => strBytes "false"
  | .num n => intToDigits n
  | .str s => [34] ++ strEsc s ++ [34]
  | .arr elems => [91] ++ jsonEncodeElems elems ++ [93]
  | .obj entries => [123] ++ jsonEncodeEntries entries ++ [125]
def jsonEncodeElems : JsonElems → List Nat
  | .nil => []
  | .cons x .nil => jsonEncode x
  | .cons x (.cons y tail) =>
    jsonEncode x ++ [44] ++ jsonEncodeElems (.cons y tail)
def jsonEncodeEntries : JsonEntries → List Nat
  | .nil => []
  | .cons k v .nil => [34] ++ strEsc k ++ [34, 58] ++ jsonEncode v
  | .cons k v (.cons k2 v2 tail) =>
    [34] ++ strEsc k ++ [34, 58] ++ jsonEncode v ++ [44] ++
      jsonEncodeEntries (.cons k2 v2 tail)
end

/-- The encoder packaged as the writer's `json.dumps` collaborator. -/
def jsonDumps : Json → Except PyExc (List Nat) := fun j => .ok (jsonEncode j)

/-- The JSON object written as `\x7b"a":1\x7d`. -/
def objA : Json := Json.obj (JsonEntries.cons "a" (Json.num 1) JsonEntries.nil)

/-- The JSON object written as `\x7b"s":"é"\x7d`. -/
def objEacute : Json :=
  Json.obj (JsonEntries.cons "s" (Json.str "é") JsonEntries.nil)

/-- C2 counterexample: with the compact separators the writer
configures, the encoded body of `objA` is the 7 bytes `\x7b"a":1\x7d`,
so the emitted frame is NOT the claimed byte sequence with
`Content-Length: 8`. -/
theorem exact_framing_counterexample :
    (JsonRpcStreamWriter.write jsonDumps objA
        ⟨[], false, false, false⟩).file.buf ≠
      strBytes "Content-Length: 8\r\nContent-Type: application/vscode-jsonrpc; charset=utf8\r\n\r\n\x7b\"a\":1\x7d" := by
  decide

/-- C2 (amended): `write` emits exactly
`Content-Length: <N>\r\nContent-Type: application/vscode-jsonrpc; charset=utf8\r\n\r\n`
followed by the N-byte encoded body, where N is the body's byte length
(first conjunct, for any codec and message).  In particular writing
`objA` yields `Content-Length: 7` (second conjunct), and a body with a
multi-byte UTF-8 character gets its UTF-8 byte count: the frame for
`objEacute` advertises 10, the body's byte length, although the body
has only 9 characters (remaining conjuncts). -/
theorem write_exact_framing :
    (∀ (dumps : Json → Except PyExc (List Nat)) (message : Json)
        (body : List Nat) (w : WFile), w.closed = false →
        w.writeRaises = false → dumps message = .ok body →
        (JsonRpcStreamWriter.write dumps message w).file.buf =
          w.buf ++ (clMarker ++ natToDigits body.length ++
            strBytes "\r\nContent-Type: application/vscode-jsonrpc; charset=utf8\r\n\r\n" ++
            body)) ∧
      (JsonRpcStreamWriter.write jsonDumps objA
          ⟨[], false, false, false⟩).file.buf =
        strBytes "Content-Length: 7\r\nContent-Type: application/vscode-jsonrpc; charset=utf8\r\n\r\n\x7b\"a\":1\x7d" ∧
      (JsonRpcStreamWriter.write jsonDumps objEacute
          ⟨[], false, false, false⟩).file.buf =
        strBytes "Content-Length: 10\r\nContent-Type: application/vscode-jsonrpc; charset=utf8\r\n\r\n\x7b\"s\":\"é\"\x7d" ∧
      (jsonEncode objEacute).length = 10 ∧
      ("\x7b\"s\":\"é\"\x7d" : String).length = 9 := by
  refine ⟨?_, by decide, by decide, by decide, by decide⟩
  intro dumps message body w hc hw hd
  rw [write_ok dumps message body w hc hw hd]
  rfl

theorem write_exact_framing_witness :
    (⟨[], false, false, false⟩ : WFile).closed = false ∧
      (⟨[], false, false, false⟩ : WFile).writeRaises = false ∧
      jsonDumps objA = .ok (jsonEncode objA) ∧
      (JsonRpcStreamWriter.write jsonDumps objA
          ⟨[], false, false, false⟩).file.buf =
        [] ++ (clMarker ++ natToDigits (jsonEncode objA).length ++
          strBytes "\r\nContent-Type: application/vscode-jsonrpc; charset=utf8\r\n\r\n" ++
          jsonEncode objA) :=
  ⟨rfl, rfl, rfl,
    write_exact_framing.1 jsonDumps objA (jsonEncode objA)
      ⟨[], false, false, false⟩ rfl rfl rfl⟩

/-- Program counter of one thread executing `JsonRpcStreamWriter.write`
on a shared open writer: before `with self._wfile_lock` (`start`),
inside the critical section with `pending` frame bytes still to reach
the stream (`writing`), or returned, lock released (`done`).  Emission
is modelled byte by byte so that only the lock prevents torn frames. -/
inductive TPC where
  | start
  | writing (pending : List Nat)
  | done
deriving DecidableEq

/-- One writer thread: its message and its program counter. -/
structure WThread where
  msg : Json
  pc : TPC

/-- Shared state of `n` threads concurrently calling `write` on one
`JsonRpcStreamWriter`: the threads, the current holder of
`self._wfile_lock` (if any), the bytes on the output stream, and the
(ghost) lock-acquisition order. -/
structure WSys where
  threads : List WThread
  holder : Option Nat
  buf : List Nat
  order : List Nat

/-- The bytes one `write(msg)` call puts on the wire: a complete frame,
or nothing when serialization raises (caught and logged). -/
def writePayload (dumps : Json → Except PyExc (List Nat)) (msg : Json) :
    List Nat :=
  match dumps msg with
  | .ok body => frameBytes body
  | .error _ => []

def initSys (msgs : List Json) : WSys :=
  ⟨msgs.map (fun m => ⟨m, .start⟩), none, [], []⟩

/-- One interleaving step: the scheduler picks thread `i`.  A `start`
thread acquires the free lock (serializing its message as the critical
section begins) or blocks; a `writing` thread emits its next byte, or
releases the lock and returns when none remain; `done` threads and
out-of-range picks do nothing. -/
def wstep (dumps : Json → Except PyExc (List Nat)) (s : WSys) (i : Nat) :
    WSys :=
  match s.threads[i]? with
  | none => s
  | some t =>
    match t.pc with
    | .start =>
      match s.holder with
      | some _ => s
      | none =>
        ⟨s.threads.set i ⟨t.msg, .writing (writePayload dumps t.msg)⟩,
          some i, s.buf, s.order ++ [i]⟩
    | .writing [] =>
      ⟨s.threads.set i ⟨t.msg, .done⟩, none, s.buf, s.order⟩
    | .writing (b :: bs) =>
      ⟨s.threads.set i ⟨t.msg, .writing bs⟩, s.holder, s.buf ++ [b], s.order⟩
    | .done => s

/-- Run a schedule (a list of thread picks) from the initial state. -/
def wrun (dumps : Json → Except PyExc (List Nat)) (msgs : List Json)
    (sched : List Nat) : WSys :=
  sched.foldl (wstep dumps) (initSys msgs)

/-- The frame thread `i` contributes. -/
def payloadAt (dumps : Json → Except PyExc (List Nat)) (msgs : List Json)
    (i : Nat) : List Nat :=
  writePayload dumps (msgs.getD i Json.null)

/-- The inductive invariant of the concurrent-writer system: the lock
acquisition order is duplicate-free over live thread indices, a
thread's phase matches its position in that order, and the stream
buffer is always the concatenation of the full frames of the threads
that have finished their critical section, in acquisition order,
followed by the written prefix of the current holder's frame. -/
structure WInv (dumps : Json → Except PyExc (List Nat)) (msgs : List Json)
    (s : WSys) : Prop where
  hlen : s.threads.length = msgs.length
  hmsg : ∀ (i : Nat) (h : i < s.threads.length),
    (s.threads.get ⟨i, h⟩).msg = msgs.getD i Json.null
  hnodup : s.order.Nodup
  hordlt : ∀ i ∈ s.order, i < msgs.length
  hstart : ∀ (i : Nat) (h : i < s.threads.length),
    (s.threads.get ⟨i, h⟩).pc = .start ↔ i ∉ s.order
  hdone : ∀ (i : Nat) (h : i < s.threads.length),
    (s.threads.get ⟨i, h⟩).pc = .done ↔ (i ∈ s.order ∧ s.holder ≠ some i)
  hhold : match s.holder with
    | none => s.buf = (s.order.map (payloadAt dumps msgs)).flatten
    | some k => ∃ (h : k < s.threads.length) (pend w ord' : List Nat),
        (s.threads.get ⟨k, h⟩).pc = .writing pend ∧
        payloadAt dumps msgs k = w ++ pend ∧
        s.order = ord' ++ [k] ∧
        s.buf = (ord'.map (payloadAt dumps msgs)).flatten ++ w

theorem winv_init (dumps : Json → Except PyExc (List Nat))
    (msgs : List Json) : WInv dumps msgs (initSys msgs) := by
  constructor
  · simp [initSys]
  · intro i h
    simp only [initSys] at h ⊢
    rw [List.get_map]
    simp [List.getD, List.getElem?_eq_getElem (by simpa using h)]
  · simp [initSys]
  · simp [initSys]
  · intro i h
    simp only [initSys]
    rw [List.get_map]
    simp
  · intro i h
    simp only [initSys]
    rw [List.get_map]
    simp
  · simp [initSys]

theorem get_set_self (l : List WThread) (i : Nat) (a : WThread)
    (h : i < (l.set i a).length) : (l.set i a).get ⟨i, h⟩ = a := by
  simp [List.get_eq_getElem]

theorem get_set_other (l : List WThread) (i j : Nat) (a : WThread) (hne : j ≠ i)
    (h : j < (l.set i a).length) :
    (l.set i a).get ⟨j, h⟩ = l.get ⟨j, by simpa using h⟩ := by
  simp [List.get_eq_getElem, List.getElem_set_ne (Ne.symm hne)]

theorem winv_step (dumps : Json → Except PyExc (List Nat)) (msgs : List Json)
    (s : WSys) (i : Nat) (hInv : WInv dumps msgs s) :
    WInv dumps msgs (wstep dumps s i) := by
  obtain ⟨hlen, hmsg, hnodup, hordlt, hstart, hdone, hhold⟩ := hInv
  have hInv' : WInv dumps msgs s := ⟨hlen, hmsg, hnodup, hordlt, hstart, hdone, hhold⟩
  rcases hi : s.threads[i]? with _ | t
  · have hs : wstep dumps s i = s := by simp [wstep, hi]
    rw [hs]
    exact hInv'
  obtain ⟨hlt, hget⟩ : ∃ h : i < s.threads.length, s.threads.get ⟨i, h⟩ = t := by
    rw [List.getElem?_eq_some] at hi
    obtain ⟨h, he⟩ := hi
    exact ⟨h, by simpa [List.get_eq_getElem] using he⟩
  have hiN : i < msgs.length := hlen ▸ hlt
  have hmsgi : t.msg = msgs.getD i Json.null := by
    rw [← hget]
    exact hmsg i hlt
  rcases hpc : t.pc with _ | pend | _
  -- start
  · rcases hh : s.holder with _ | k
    · -- lock free: acquire
      have hs : wstep dumps s i =
          ⟨s.threads.set i ⟨t.msg, .writing (writePayload dumps t.msg)⟩,
            some i, s.buf, s.order ++ [i]⟩ := by
        simp [wstep, hi, hpc, hh]
      rw [hs]
      have hiord : i ∉ s.order := by
        apply (hstart i hlt).mp
        rw [hget, hpc]
      refine ⟨?_, ?_, ?_, ?_, ?_, ?_, ?_⟩
      · simpa using hlen
      · intro j h
        by_cases hj : j = i
        · subst hj
          rw [get_set_self]
          simpa using hmsgi
        · rw [get_set_other _ _ _ _ hj]
          exact hmsg j _
      · simpa [List.nodup_append] using ⟨hnodup, hiord⟩
      · intro j hj
        rcases List.mem_append.mp hj with h1 | h2
        · exact hordlt j h1
        · simp at h2
          subst h2
          exact hiN
      · intro j h
        by_cases hj : j = i
        · subst hj
          rw [get_set_self]
          simp
        · rw [get_set_other _ _ _ _ hj]
          rw [hstart j _]
          simp [hj]
      · intro j h
        by_cases hj : j = i
        · subst hj
          rw [get_set_self]
          simp
        · rw [get_set_other _ _ _ _ hj]
          rw [hdone j _]
          rw [hh]
          simp [hj, Ne.symm hj]
      · refine ⟨by simpa using hlt, writePayload dumps t.msg, [], s.order, ?_, ?_, rfl, ?_⟩
        · rw [get_set_self]
        · rw [List.nil_append]
          simp [payloadAt, hmsgi]
        · rw [hh] at hhold
          simpa using hhold
    · -- lock held: blocked, no-op
      have hs : wstep dumps s i = s := by simp [wstep, hi, hpc, hh]
      rw [hs]
      exact hInv'
  -- writing
  · have hiord : i ∈ s.order := by
      by_contra hno
      have hpcs := (hstart i hlt).mpr hno
      rw [hget, hpc] at hpcs
      exact TPC.noConfusion hpcs
    have hhi : s.holder = some i := by
      rcases hh : s.holder with _ | k
      · have hpcd := (hdone i hlt).mpr ⟨hiord, by rw [hh]; simp⟩
        rw [hget, hpc] at hpcd
        exact absurd hpcd (by simp)
      · by_cases hk : k = i
        · rw [hk]
        · have hpcd := (hdone i hlt).mpr ⟨hiord, by rw [hh]; simp [hk]⟩
          rw [hget, hpc] at hpcd
          exact absurd hpcd (by simp)
    rw [hhi] at hhold
    obtain ⟨hlt2, pend', w, ord', hpcw, hpay, hordeq, hbuf⟩ := hhold
    have hpend : pend = pend' := by
      rw [hget, hpc] at hpcw
      exact TPC.writing.injEq _ _ ▸ hpcw
    subst hpend
    rcases hpe : pend with _ | ⟨b, bs⟩
    · -- pending empty: release the lock, return
      have hs : wstep dumps s i =
          ⟨s.threads.set i ⟨t.msg, .done⟩, none, s.buf, s.order⟩ := by
        simp [wstep, hi, hpc, hpe]
      rw [hs]
      refine ⟨?_, ?_, ?_, ?_, ?_, ?_, ?_⟩
      · simpa using hlen
      · intro j h
        by_cases hj : j = i
        · subst hj
          rw [get_set_self]
          simpa using hmsgi
        · rw [get_set_other _ _ _ _ hj]
          exact hmsg j _
      · exact hnodup
      · exact hordlt
      · intro j h
        by_cases hj : j = i
        · subst hj
          rw [get_set_self]
          simp [hiord]
        · rw [get_set_other _ _ _ _ hj]
          exact hstart j _
      · intro j h
        by_cases hj : j = i
        · subst hj
          rw [get_set_self]
          simp [hiord]
        · rw [get_set_other _ _ _ _ hj]
          rw [hdone j _]
          rw [hhi]
          simp [hj, Ne.symm hj]
      · show _ = _
        rw [hordeq, hbuf]
        rw [hpe] at hpay
        rw [List.append_nil] at hpay
        simp [hpay]
    · -- emit one byte of the frame
      have hs : wstep dumps s i =
          ⟨s.threads.set i ⟨t.msg, .writing bs⟩, s.holder, s.buf ++ [b],
            s.order⟩ := by
        simp [wstep, hi, hpc, hpe]
      rw [hs]
      refine ⟨?_, ?_, ?_, ?_, ?_, ?_, ?_⟩
      · simpa using hlen
      · intro j h
        by_cases hj : j = i
        · subst hj
          rw [get_set_self]
          simpa using hmsgi
        · rw [get_set_other _ _ _ _ hj]
          exact hmsg j _
      · exact hnodup
      · exact hordlt
      · intro j h
        by_cases hj : j = i
        · subst hj
          rw [get_set_self]
          simp [hiord]
        · rw [get_set_other _ _ _ _ hj]
          exact hstart j _
      · intro j h
        by_cases hj : j = i
        · subst hj
          rw [get_set_self]
          rw [hhi]
          simp
        · rw [get_set_other _ _ _ _ hj]
          rw [hdone j _]
      · rw [hhi]
        refine ⟨by simpa using hlt, bs, w ++ [b], ord', ?_, ?_, hordeq, ?_⟩
        · rw [get_set_self]
        · rw [hpe] at hpay
          rw [hpay]
          simp
        · rw [hbuf]
          simp
  -- done: no-op
  · have hs : wstep dumps s i = s := by simp [wstep, hi, hpc]
    rw [hs]
    exact hInv'

theorem winv_foldl (dumps : Json → Except PyExc (List Nat)) (msgs : List Json)
    (sched : List Nat) (s : WSys) (h : WInv dumps msgs s) :
    WInv dumps msgs (sched.foldl (wstep dumps) s) := by
  induction sched generalizing s with
  | nil => simpa using h
  | cons i rest ih => simpa using ih _ (winv_step dumps msgs s i h)

/-- C9: under the per-instance lock, any interleaving of N threads
concurrently calling `write` with their own messages that runs every
thread to completion leaves on the output stream exactly the
concatenation of the N complete frames, one per thread, in
lock-acquisition order and never torn — the acquisition order being a
permutation of the thread indices.  (Threads are modelled as
interleaved atomic steps at byte granularity, so only the lock prevents
interleaved frames; `close` is not modelled.) -/
theorem concurrent_writes_serialized (dumps : Json → Except PyExc (List Nat))
    (msgs : List Json) (sched : List Nat)
    (hall : ∀ t ∈ (wrun dumps msgs sched).threads, t.pc = .done) :
    (wrun dumps msgs sched).buf =
        ((wrun dumps msgs sched).order.map (payloadAt dumps msgs)).flatten ∧
      (wrun dumps msgs sched).order.Perm (List.range msgs.length) := by
  have hInv : WInv dumps msgs (wrun dumps msgs sched) :=
    winv_foldl dumps msgs sched (initSys msgs) (winv_init dumps msgs)
  obtain ⟨hlen, hmsg, hnodup, hordlt, hstart, hdone, hhold⟩ := hInv
  have hholder : (wrun dumps msgs sched).holder = none := by
    rcases hh : (wrun dumps msgs sched).holder with _ | k
    · rfl
    · rw [hh] at hhold
      obtain ⟨hlt2, pend, w, ord', hpcw, _, _, _⟩ := hhold
      have hd := hall ((wrun dumps msgs sched).threads.get ⟨k, hlt2⟩)
        (List.get_mem _ _ _)
      rw [hpcw] at hd
      exact absurd hd (by simp)
  rw [hholder] at hhold
  refine ⟨hhold, ?_⟩
  rw [List.perm_ext_iff_of_nodup hnodup (List.nodup_range _)]
  intro a
  constructor
  · intro ha
    rw [List.mem_range]
    exact hordlt a ha
  · intro ha
    rw [List.mem_range] at ha
    have hlt' : a < (wrun dumps msgs sched).threads.length := by
      rw [hlen]
      exact ha
    by_contra hno
    have hps := (hstart a hlt').mpr hno
    have hd := hall ((wrun dumps msgs sched).threads.get ⟨a, hlt'⟩)
      (List.get_mem _ _ _)
    rw [hd] at hps
    exact absurd hps (by simp)

/-- Two messages for two concurrent writer threads. -/
def msgs2 : List Json := [Json.num 1, Json.num 2]

/-- A schedule interleaving the two threads: thread 1 is picked twice
while thread 0 holds the lock (and blocks), then each thread runs to
completion. -/
def sched2 : List Nat :=
  List.replicate 40 0 ++ [1, 1] ++ List.replicate 40 0 ++ List.replicate 80 1

theorem concurrent_writes_serialized_witness :
    (∀ t ∈ (wrun jsonDumps msgs2 sched2).threads, t.pc = .done) ∧
      ((wrun jsonDumps msgs2 sched2).buf =
          ((wrun jsonDumps msgs2 sched2).order.map
            (payloadAt jsonDumps msgs2)).flatten ∧
        (wrun jsonDumps msgs2 sched2).order.Perm (List.range msgs2.length)) :=
  ⟨by decide, concurrent_writes_serialized jsonDumps msgs2 sched2 (by decide)⟩
